import Mathlib

/-!
Shallow embedding of the control-flow-graph construction engine in
`src/src/lib.rs` (crate `ctrl-flow`): the `BasicBlock` and
`ControlFlowGraph` data types and their operations `new`, `add_edge`,
`add_block`, `query_blocks`, `add_instruction` and `execute`.

Rust's `HashMap<usize, BlockType>` is modelled as an association list with
replace-on-insert semantics; `Vec<usize>` edge lists are Lean lists;
`Result<(), CFGError>` on a `&mut self` method is modelled as a pair
`Option CFGError × ControlFlowGraph` returning the (possibly partially
mutated) state alongside the outcome, with `none` standing for `Ok(())`.
-/

inductive JumpType where
  | unconditionalJump
  | conditionalTaken
  | conditionalNotTaken
deriving DecidableEq

inductive BlockType where
  | instruction (name : String) (operand : String)
  | jump (name : String) (success_address : Nat) (jump_type : JumpType)
      (failure_address : Option Nat)
deriving DecidableEq

inductive CFGError where
  | missingBlock
  | missingCurrentBlock
  | expectedFailureAddress
deriving DecidableEq

/-- `HashMap::insert`: replace the value when the key is present, otherwise
add the pair. -/
def insertMap (m : List (Nat × BlockType)) (k : Nat) (v : BlockType) :
    List (Nat × BlockType) :=
  match m with
  | [] => [(k, v)]
  | (k', v') :: rest =>
      if k' = k then (k, v) :: rest else (k', v') :: insertMap rest k v

structure BasicBlock where
  /-- The starting address of this basic block. -/
  start : Nat
  /-- The current end address of this basic block (`end` in the source). -/
  end_ : Nat
  /-- The mapping of each address to its respective BlockType. -/
  block : List (Nat × BlockType)
  /-- The edges for the given basic block, indices to other BasicBlocks. -/
  edges : List Nat
deriving DecidableEq

def BasicBlock.new (start : Nat) : BasicBlock :=
  { start := start, end_ := start, block := [], edges := [] }

/-- `BasicBlock::add_instruction`: insert at `address` (replacing any
previous entry) and set `end` to `address`. -/
def BasicBlock.add_instruction (b : BasicBlock) (address : Nat)
    (instruction : BlockType) : BasicBlock :=
  { b with block := insertMap b.block address instruction, end_ := address }

/-- `BasicBlock::add_edge`: push the target index onto the edge vector. -/
def BasicBlock.add_edge (b : BasicBlock) (edge : Nat) : BasicBlock :=
  { b with edges := b.edges ++ [edge] }

structure ControlFlowGraph where
  /-- The index of the current block. -/
  current_block : Nat
  /-- The basic blocks found inside this given ControlFlowGraph. -/
  blocks : List BasicBlock
deriving DecidableEq

def ControlFlowGraph.new (entry_point : Nat) : ControlFlowGraph :=
  { current_block := 0, blocks := [BasicBlock.new entry_point] }

/-- `ControlFlowGraph::add_edge`: fail with `MissingBlock` when `dest_block`
or `src_block` is out of range (checking `dest_block` first, mutating
nothing), otherwise push `dest_block` onto `src_block`'s edges. -/
def ControlFlowGraph.add_edge (g : ControlFlowGraph)
    (src_block dest_block : Nat) : Option CFGError × ControlFlowGraph :=
  if dest_block < g.blocks.length then
    if h : src_block < g.blocks.length then
      let nb := (g.blocks.get ⟨src_block, h⟩).add_edge dest_block
      (none, { g with blocks := g.blocks.set src_block nb })
    else (some .missingBlock, g)
  else (some .missingBlock, g)

/-- `ControlFlowGraph::add_block`: append the block, return its index. -/
def ControlFlowGraph.add_block (g : ControlFlowGraph) (b : BasicBlock) :
    ControlFlowGraph × Nat :=
  ({ g with blocks := g.blocks ++ [b] }, g.blocks.length)

/-- The enumerated linear scan inside `ControlFlowGraph::query_blocks`. -/
def queryAux (blocks : List BasicBlock) (address : Nat) (i : Nat) :
    Option Nat :=
  match blocks with
  | [] => none
  | bb :: rest => if bb.start = address then some i else queryAux rest address (i + 1)

/-- `ControlFlowGraph::query_blocks`: first index whose block starts at
`address`, if any. -/
def ControlFlowGraph.query_blocks (g : ControlFlowGraph) (address : Nat) :
    Option Nat :=
  queryAux g.blocks address 0

/-- Total indexing helper used by the statements below: the block at index
`i`, defaulting to an empty block at address 0 when `i` is out of range. -/
def ControlFlowGraph.blockAt (g : ControlFlowGraph) (i : Nat) : BasicBlock :=
  (g.blocks[i]?).getD (BasicBlock.new 0)

/-- The `JumpType::UnconditionalJump` arm of `execute`: on a lookup hit,
install an edge current→target and move the cursor; on a miss, append a
fresh block at `success_address` and move the cursor (the source installs
no edge on this path). -/
def ControlFlowGraph.uncondStep (g : ControlFlowGraph) (success_address : Nat) :
    Option CFGError × ControlFlowGraph :=
  match g.query_blocks success_address with
  | some success_index =>
      match g.add_edge g.current_block success_index with
      | (none, g') => (none, { g' with current_block := success_index })
      | (some e, g') => (some e, g')
  | none =>
      let p := g.add_block (BasicBlock.new success_address)
      (none, { p.1 with current_block := p.2 })

/-- Lookup-or-create the block at `address` and install an edge
current→target, cursor unchanged: the failure half of the
`ConditionalTaken` arm of `execute` and the success half of its
`ConditionalNotTaken` arm. -/
def ControlFlowGraph.resolveEdge (g : ControlFlowGraph) (address : Nat) :
    Option CFGError × ControlFlowGraph :=
  match g.query_blocks address with
  | some idx => g.add_edge g.current_block idx
  | none =>
      let p := g.add_block (BasicBlock.new address)
      p.1.add_edge p.1.current_block p.2

/-- Lookup-or-create the block at `address`, install an edge current→target
and (on success) move the cursor there: the success half of the
`ConditionalTaken` arm of `execute` and the failure half of its
`ConditionalNotTaken` arm. -/
def ControlFlowGraph.resolveEdgeCursor (g : ControlFlowGraph) (address : Nat) :
    Option CFGError × ControlFlowGraph :=
  match g.query_blocks address with
  | some idx =>
      match g.add_edge g.current_block idx with
      | (none, g') => (none, { g' with current_block := idx })
      | (some e, g') => (some e, g')
  | none =>
      let p := g.add_block (BasicBlock.new address)
      match p.1.add_edge p.1.current_block p.2 with
      | (none, g') => (none, { g' with current_block := p.2 })
      | (some e, g') => (some e, g')

/-- `ControlFlowGraph::execute`. The returned pair is (outcome, state after
the call); on an error the state keeps every mutation made before the early
return, exactly as the Rust `&mut self` method does. -/
def ControlFlowGraph.execute (g : ControlFlowGraph) (program_counter : Nat)
    (instruction : BlockType) : Option CFGError × ControlFlowGraph :=
  match instruction with
  | .instruction name operand =>
      match g.blocks[g.current_block]? with
      | none => (some .missingCurrentBlock, g)
      | some curr_block =>
          if curr_block.start ≤ program_counter ∧ program_counter ≤ curr_block.end_ then
            let nb := curr_block.add_instruction program_counter (.instruction name operand)
            (none, { g with blocks := g.blocks.set g.current_block nb })
          else (none, g)
  | .jump name success_address jump_type failure_address =>
      match g.blocks[g.current_block]? with
      | none => (some .missingCurrentBlock, g)
      | some curr_block =>
          let g :=
            if curr_block.start ≤ program_counter ∧ program_counter ≤ curr_block.end_ then
              let nb := curr_block.add_instruction program_counter
                (.jump name success_address jump_type failure_address)
              { g with blocks := g.blocks.set g.current_block nb }
            else g
          match jump_type with
          | .unconditionalJump => g.uncondStep success_address
          | .conditionalTaken =>
              match failure_address with
              | none => (some .expectedFailureAddress, g)
              | some fail_address =>
                  match g.resolveEdge fail_address with
                  | (some e, g1) => (some e, g1)
                  | (none, g1) => g1.resolveEdgeCursor success_address
          | .conditionalNotTaken =>
              match failure_address with
              | none => (some .expectedFailureAddress, g)
              | some fail_address =>
                  match g.resolveEdge success_address with
                  | (some e, g1) => (some e, g1)
                  | (none, g1) => g1.resolveEdgeCursor fail_address

/-- Feeding a trace of `(program_counter, instruction)` pairs through
`execute`, keeping the state across calls whatever each outcome was. -/
def runTrace (g : ControlFlowGraph) (tr : List (Nat × BlockType)) :
    ControlFlowGraph :=
  tr.foldl (fun g p => (g.execute p.1 p.2).2) g

/-- There is a block whose `start` is `a`. -/
def hasBlockAt (g : ControlFlowGraph) (a : Nat) : Prop :=
  ∃ j, j < g.blocks.length ∧ (g.blockAt j).start = a

/-- The structural well-formedness that `new` establishes and `execute`
preserves: the cursor is in range and every block's `end` equals its
`start` (a consequence of the range check gating `add_instruction`). -/
def GoodCFG (g : ControlFlowGraph) : Prop :=
  g.current_block < g.blocks.length ∧ ∀ b ∈ g.blocks, b.end_ = b.start

/-! ### List-level helpers -/

theorem set_self_eq {α : Type} (l : List α) (n : Nat) (x : α)
    (h : l[n]? = some x) : l.set n x = l := by
  induction l generalizing n with
  | nil => simp at h
  | cons a t ih =>
    cases n with
    | zero => simp_all
    | succ m =>
      simp only [List.getElem?_cons_succ] at h
      simp [ih _ h]

/-! ### Lemmas about the linear block scan -/

theorem queryAux_some {bs : List BasicBlock} {a i j : Nat}
    (h : queryAux bs a i = some j) :
    i ≤ j ∧ ∃ b, bs[j - i]? = some b ∧ b.start = a := by
  induction bs generalizing i with
  | nil => simp [queryAux] at h
  | cons bb rest ih =>
    simp only [queryAux] at h
    split at h
    next heq =>
      injection h with h
      subst h
      exact ⟨Nat.le_refl _, bb, by simp, heq⟩
    next hne =>
      obtain ⟨hle, b, hb, hs⟩ := ih h
      refine ⟨by omega, b, ?_, hs⟩
      have hji : j - i = (j - (i + 1)) + 1 := by omega
      rw [hji]
      simpa using hb

theorem queryAux_isSome : ∀ (bs : List BasicBlock) (a i : Nat),
    (∃ b ∈ bs, b.start = a) → (queryAux bs a i).isSome
  | [], _, _, h => by simp at h
  | bb :: rest, a, i, h => by
    simp only [queryAux]
    split
    · simp
    next hne =>
      apply queryAux_isSome rest a (i + 1)
      rcases h with ⟨b, hb, hs⟩
      rcases List.mem_cons.mp hb with rfl | h'
      · exact absurd hs hne
      · exact ⟨b, h', hs⟩

theorem query_blocks_some {g : ControlFlowGraph} {a j : Nat}
    (h : g.query_blocks a = some j) :
    ∃ b, g.blocks[j]? = some b ∧ b.start = a := by
  simp only [ControlFlowGraph.query_blocks] at h
  obtain ⟨-, b, hb, hs⟩ := queryAux_some h
  exact ⟨b, by simpa using hb, hs⟩

theorem query_blocks_isSome {g : ControlFlowGraph} {a : Nat}
    (h : hasBlockAt g a) : (g.query_blocks a).isSome := by
  obtain ⟨j, hj, hs⟩ := h
  apply queryAux_isSome
  refine ⟨g.blockAt j, ?_, hs⟩
  have hj' : g.blocks[j]? = some (g.blockAt j) := by
    simp [ControlFlowGraph.blockAt, List.getElem?_eq_getElem hj]
  exact List.getElem?_mem hj'

theorem query_blocks_lt {g : ControlFlowGraph} {a j : Nat}
    (h : g.query_blocks a = some j) : j < g.blocks.length := by
  obtain ⟨b, hb, -⟩ := query_blocks_some h
  exact (List.getElem?_eq_some.mp hb).1

theorem query_blocks_blockAt {g : ControlFlowGraph} {a j : Nat}
    (h : g.query_blocks a = some j) : (g.blockAt j).start = a := by
  obtain ⟨b, hb, hs⟩ := query_blocks_some h
  simp [ControlFlowGraph.blockAt, hb, hs]

/-! ### Total list indexing with a default block -/

/-- `atD l i`: the block at index `i`, or an empty block at address 0. -/
def atD (l : List BasicBlock) (i : Nat) : BasicBlock :=
  (l[i]?).getD (BasicBlock.new 0)

theorem blockAt_eq_atD (g : ControlFlowGraph) (i : Nat) :
    g.blockAt i = atD g.blocks i := rfl

theorem atD_set_self {l : List BasicBlock} {i : Nat} (x : BasicBlock)
    (h : i < l.length) : atD (l.set i x) i = x := by
  simp [atD, List.getElem?_set_self h]

theorem atD_set_ne {l : List BasicBlock} {i j : Nat} (x : BasicBlock)
    (h : i ≠ j) : atD (l.set i x) j = atD l j := by
  simp [atD, List.getElem?_set_ne h]

theorem atD_append_lt {l l2 : List BasicBlock} {j : Nat} (h : j < l.length) :
    atD (l ++ l2) j = atD l j := by
  simp [atD, List.getElem?_append_left h]

theorem atD_append_len {l : List BasicBlock} (x : BasicBlock) :
    atD (l ++ [x]) l.length = x := by
  simp [atD, List.getElem?_append_right (Nat.le_refl _)]

theorem atD_default {l : List BasicBlock} {j : Nat} (h : l.length ≤ j) :
    atD l j = BasicBlock.new 0 := by
  simp [atD, List.getElem?_eq_none h]

theorem atD_getElem {l : List BasicBlock} {j : Nat} (h : j < l.length) :
    l[j]? = some (atD l j) := by
  simp [atD, List.getElem?_eq_getElem h]

theorem atD_mem {l : List BasicBlock} {j : Nat} (h : j < l.length) :
    atD l j ∈ l :=
  List.getElem?_mem (atD_getElem h)

/-! ### Lemmas about `ControlFlowGraph.add_edge` -/

theorem cfg_add_edge_ok {g : ControlFlowGraph} {s d : Nat}
    (hs : s < g.blocks.length) (hd : d < g.blocks.length) :
    g.add_edge s d
      = (none, { g with blocks := g.blocks.set s ((g.blockAt s).add_edge d) }) := by
  simp only [ControlFlowGraph.add_edge, if_pos hd, dif_pos hs,
    ControlFlowGraph.blockAt, List.get_eq_getElem, List.getElem?_eq_getElem hs,
    Option.getD_some]

theorem cfg_add_edge_err {g : ControlFlowGraph} {s d : Nat}
    (h : ¬(s < g.blocks.length ∧ d < g.blocks.length)) :
    g.add_edge s d = (some .missingBlock, g) := by
  by_cases hd : d < g.blocks.length
  · have hs : ¬ s < g.blocks.length := fun hs => h ⟨hs, hd⟩
    simp [ControlFlowGraph.add_edge, hd, hs]
  · simp [ControlFlowGraph.add_edge, hd]

/-! ### Specifications of the jump-resolution steps -/

/-- The index that lookup-or-create resolves `a` to: the first block whose
`start` is `a`, or the index of the freshly appended block. -/
def resolvedIdx (g : ControlFlowGraph) (a : Nat) : Nat :=
  (g.query_blocks a).getD g.blocks.length

theorem resolveEdge_spec {g : ControlFlowGraph} {a : Nat}
    (hcur : g.current_block < g.blocks.length) :
    ∃ fi g', g.resolveEdge a = (none, g') ∧
      fi = resolvedIdx g a ∧
      g'.current_block = g.current_block ∧
      g'.current_block < g'.blocks.length ∧
      fi < g'.blocks.length ∧
      g.blocks.length ≤ g'.blocks.length ∧
      (atD g'.blocks fi).start = a ∧
      (atD g'.blocks g.current_block).edges
        = (atD g.blocks g.current_block).edges ++ [fi] ∧
      (∀ j, j < g.blocks.length →
        (atD g'.blocks j).start = (atD g.blocks j).start) ∧
      (∀ j, j < g.blocks.length →
        (atD g'.blocks j).end_ = (atD g.blocks j).end_) ∧
      (∀ j, j < g.blocks.length →
        (atD g'.blocks j).block = (atD g.blocks j).block) ∧
      ((∀ b ∈ g.blocks, b.end_ = b.start) → ∀ b ∈ g'.blocks, b.end_ = b.start) ∧
      (hasBlockAt g a → g'.blocks.length = g.blocks.length) ∧
      (∀ j, g.blocks.length ≤ j → (atD g'.blocks j).block = []) := by
  cases hq : g.query_blocks a with
  | some idx =>
    have hidx := query_blocks_lt hq
    have hstart := query_blocks_blockAt hq
    rw [blockAt_eq_atD] at hstart
    have heq : g.resolveEdge a
        = (none, { g with blocks := g.blocks.set g.current_block ((g.blockAt g.current_block).add_edge idx) }) := by
      simp [ControlFlowGraph.resolveEdge, hq, cfg_add_edge_ok hcur hidx]
    refine ⟨idx, _, heq, by simp [resolvedIdx, hq], rfl, by simpa using hcur,
      by simpa using hidx, by simp, ?_, ?_, ?_, ?_, ?_, ?_, by simp, ?_⟩
    · by_cases hc : g.current_block = idx
      · subst hc
        rw [atD_set_self _ hidx]
        simpa [BasicBlock.add_edge, blockAt_eq_atD] using hstart
      · rw [atD_set_ne _ hc]
        exact hstart
    · rw [atD_set_self _ hcur]
      simp [BasicBlock.add_edge, blockAt_eq_atD]
    · intro j hj
      by_cases hc : g.current_block = j
      · subst hc
        rw [atD_set_self _ hcur]
        simp [BasicBlock.add_edge, blockAt_eq_atD]
      · rw [atD_set_ne _ hc]
    · intro j hj
      by_cases hc : g.current_block = j
      · subst hc
        rw [atD_set_self _ hcur]
        simp [BasicBlock.add_edge, blockAt_eq_atD]
      · rw [atD_set_ne _ hc]
    · intro j hj
      by_cases hc : g.current_block = j
      · subst hc
        rw [atD_set_self _ hcur]
        simp [BasicBlock.add_edge, blockAt_eq_atD]
      · rw [atD_set_ne _ hc]
    · intro hends b hb
      rcases List.mem_or_eq_of_mem_set hb with h | rfl
      · exact hends _ h
      · simpa [BasicBlock.add_edge, blockAt_eq_atD] using
          hends _ (atD_mem hcur)
    · intro j hj
      have hlen : (g.blocks.set g.current_block
          ((g.blockAt g.current_block).add_edge idx)).length ≤ j := by
        simpa using hj
      simp [atD_default hlen, BasicBlock.new]
  | none =>
    have hmiss : ¬ hasBlockAt g a := by
      intro h
      have h2 := query_blocks_isSome h
      rw [hq] at h2
      simp at h2
    have hcur' : g.current_block < (g.blocks ++ [BasicBlock.new a]).length := by
      simp
      omega
    have hlen' : g.blocks.length < (g.blocks ++ [BasicBlock.new a]).length := by
      simp
    have hok := cfg_add_edge_ok
      (g := { g with blocks := g.blocks ++ [BasicBlock.new a] })
      (s := g.current_block) (d := g.blocks.length) hcur' hlen'
    have heq : g.resolveEdge a
        = (none, { g with blocks := (g.blocks ++ [BasicBlock.new a]).set g.current_block ((atD (g.blocks ++ [BasicBlock.new a]) g.current_block).add_edge g.blocks.length) }) := by
      simp only [ControlFlowGraph.resolveEdge, hq, ControlFlowGraph.add_block]
      rw [hok]
      rfl
    have hne : g.current_block ≠ g.blocks.length := Nat.ne_of_lt hcur
    have hat : atD (g.blocks ++ [BasicBlock.new a]) g.current_block
        = atD g.blocks g.current_block := atD_append_lt hcur
    refine ⟨g.blocks.length, _, heq, by simp [resolvedIdx, hq], rfl,
      by simpa using Nat.lt_succ_of_lt hcur, by simp, by simp, ?_, ?_, ?_, ?_, ?_, ?_,
      fun h => absurd h hmiss, ?_⟩
    · rw [atD_set_ne _ hne, atD_append_len]
      rfl
    · rw [atD_set_self _ hcur', hat]
      simp [BasicBlock.add_edge]
    · intro j hj
      by_cases hc : g.current_block = j
      · subst hc
        rw [atD_set_self _ hcur', hat]
        simp [BasicBlock.add_edge]
      · rw [atD_set_ne _ hc, atD_append_lt hj]
    · intro j hj
      by_cases hc : g.current_block = j
      · subst hc
        rw [atD_set_self _ hcur', hat]
        simp [BasicBlock.add_edge]
      · rw [atD_set_ne _ hc, atD_append_lt hj]
    · intro j hj
      by_cases hc : g.current_block = j
      · subst hc
        rw [atD_set_self _ hcur', hat]
        simp [BasicBlock.add_edge]
      · rw [atD_set_ne _ hc, atD_append_lt hj]
    · intro hends b hb
      rcases List.mem_or_eq_of_mem_set hb with h | rfl
      · rcases List.mem_append.mp h with h' | h'
        · exact hends _ h'
        · rcases List.mem_singleton.mp h' with rfl
          rfl
      · rw [hat]
        simp only [BasicBlock.add_edge]
        exact hends _ (atD_mem hcur)
    · intro j hj
      rcases Nat.eq_or_lt_of_le hj with rfl | hj'
      · rw [atD_set_ne _ hne, atD_append_len]
        rfl
      · have hlen2 : ((g.blocks ++ [BasicBlock.new a]).set g.current_block
            ((atD (g.blocks ++ [BasicBlock.new a]) g.current_block).add_edge
              g.blocks.length)).length ≤ j := by
          simp
          omega
        rw [atD_default hlen2]
        rfl

theorem resolveEdgeCursor_eq (g : ControlFlowGraph) (a : Nat) :
    g.resolveEdgeCursor a =
      ((g.resolveEdge a).1,
        if (g.resolveEdge a).1 = none
        then { (g.resolveEdge a).2 with current_block := resolvedIdx g a }
        else (g.resolveEdge a).2) := by
  cases hq : g.query_blocks a with
  | some idx =>
    rcases hae : g.add_edge g.current_block idx with ⟨o, g2⟩
    cases o <;>
      simp [ControlFlowGraph.resolveEdgeCursor, ControlFlowGraph.resolveEdge,
        resolvedIdx, hq, hae]
  | none =>
    rcases hae : ControlFlowGraph.add_edge
        { g with blocks := g.blocks ++ [BasicBlock.new a] }
        g.current_block g.blocks.length with ⟨o, g2⟩
    cases o <;>
      simp [ControlFlowGraph.resolveEdgeCursor, ControlFlowGraph.resolveEdge,
        resolvedIdx, ControlFlowGraph.add_block, hq, hae]

theorem resolveEdgeCursor_spec {g : ControlFlowGraph} {a : Nat}
    (hcur : g.current_block < g.blocks.length) :
    ∃ fi g', g.resolveEdgeCursor a = (none, g') ∧
      fi = resolvedIdx g a ∧
      g'.current_block = fi ∧
      g'.current_block < g'.blocks.length ∧
      fi < g'.blocks.length ∧
      g.blocks.length ≤ g'.blocks.length ∧
      (atD g'.blocks fi).start = a ∧
      (atD g'.blocks g.current_block).edges
        = (atD g.blocks g.current_block).edges ++ [fi] ∧
      (∀ j, j < g.blocks.length →
        (atD g'.blocks j).start = (atD g.blocks j).start) ∧
      (∀ j, j < g.blocks.length →
        (atD g'.blocks j).end_ = (atD g.blocks j).end_) ∧
      (∀ j, j < g.blocks.length →
        (atD g'.blocks j).block = (atD g.blocks j).block) ∧
      ((∀ b ∈ g.blocks, b.end_ = b.start) → ∀ b ∈ g'.blocks, b.end_ = b.start) ∧
      (hasBlockAt g a → g'.blocks.length = g.blocks.length) ∧
      (∀ j, g.blocks.length ≤ j → (atD g'.blocks j).block = []) := by
  obtain ⟨fi, g0, heq, hfi, hcb, hcblt, hfilt, hmono, hstart, hedges,
    hp1, hp2, hp3, hends, hlen, hempty⟩ := resolveEdge_spec (a := a) hcur
  refine ⟨fi, { g0 with current_block := fi }, ?_, hfi, rfl, ?_, hfilt, hmono,
    hstart, hedges, hp1, hp2, hp3, hends, hlen, hempty⟩
  · rw [resolveEdgeCursor_eq, heq, hfi]
    simp
  · simpa using hfilt

theorem uncondStep_spec {g : ControlFlowGraph} {a : Nat}
    (hcur : g.current_block < g.blocks.length) :
    ∃ si g', g.uncondStep a = (none, g') ∧
      g'.current_block = si ∧
      g'.current_block < g'.blocks.length ∧
      g.blocks.length ≤ g'.blocks.length ∧
      (atD g'.blocks si).start = a ∧
      (∀ j, j < g.blocks.length →
        (atD g'.blocks j).start = (atD g.blocks j).start) ∧
      (∀ j, j < g.blocks.length →
        (atD g'.blocks j).end_ = (atD g.blocks j).end_) ∧
      (∀ j, j < g.blocks.length →
        (atD g'.blocks j).block = (atD g.blocks j).block) ∧
      ((∀ b ∈ g.blocks, b.end_ = b.start) → ∀ b ∈ g'.blocks, b.end_ = b.start) ∧
      (hasBlockAt g a → g'.blocks.length = g.blocks.length) ∧
      (∀ j, g.blocks.length ≤ j → (atD g'.blocks j).block = []) := by
  cases hq : g.query_blocks a with
  | some idx =>
    have hidx := query_blocks_lt hq
    have hstart := query_blocks_blockAt hq
    rw [blockAt_eq_atD] at hstart
    have heq : g.uncondStep a
        = (none, { current_block := idx, blocks := g.blocks.set g.current_block ((g.blockAt g.current_block).add_edge idx) }) := by
      simp [ControlFlowGraph.uncondStep, hq, cfg_add_edge_ok hcur hidx]
    refine ⟨idx, _, heq, rfl, by simpa using hidx, by simp, ?_, ?_, ?_, ?_, ?_,
      by simp, ?_⟩
    · by_cases hc : g.current_block = idx
      · subst hc
        rw [atD_set_self _ hidx]
        simpa [BasicBlock.add_edge, blockAt_eq_atD] using hstart
      · rw [atD_set_ne _ hc]
        exact hstart
    · intro j hj
      by_cases hc : g.current_block = j
      · subst hc
        rw [atD_set_self _ hcur]
        simp [BasicBlock.add_edge, blockAt_eq_atD]
      · rw [atD_set_ne _ hc]
    · intro j hj
      by_cases hc : g.current_block = j
      · subst hc
        rw [atD_set_self _ hcur]
        simp [BasicBlock.add_edge, blockAt_eq_atD]
      · rw [atD_set_ne _ hc]
    · intro j hj
      by_cases hc : g.current_block = j
      · subst hc
        rw [atD_set_self _ hcur]
        simp [BasicBlock.add_edge, blockAt_eq_atD]
      · rw [atD_set_ne _ hc]
    · intro hends b hb
      rcases List.mem_or_eq_of_mem_set hb with h | rfl
      · exact hends _ h
      · simpa [BasicBlock.add_edge, blockAt_eq_atD] using
          hends _ (atD_mem hcur)
    · intro j hj
      have hlen : (g.blocks.set g.current_block
          ((g.blockAt g.current_block).add_edge idx)).length ≤ j := by
        simpa using hj
      rw [atD_default hlen]
      rfl
  | none =>
    have hmiss : ¬ hasBlockAt g a := by
      intro h
      have h2 := query_blocks_isSome h
      rw [hq] at h2
      simp at h2
    have heq : g.uncondStep a
        = (none, { current_block := g.blocks.length, blocks := g.blocks ++ [BasicBlock.new a] }) := by
      simp [ControlFlowGraph.uncondStep, hq, ControlFlowGraph.add_block]
    refine ⟨g.blocks.length, _, heq, rfl, by simp, by simp, ?_, ?_, ?_, ?_, ?_,
      fun h => absurd h hmiss, ?_⟩
    · rw [atD_append_len]
      rfl
    · intro j hj
      rw [atD_append_lt hj]
    · intro j hj
      rw [atD_append_lt hj]
    · intro j hj
      rw [atD_append_lt hj]
    · intro hends b hb
      rcases List.mem_append.mp hb with h' | h'
      · exact hends _ h'
      · rcases List.mem_singleton.mp h' with rfl
        rfl
    · intro j hj
      rcases Nat.eq_or_lt_of_le hj with rfl | hj'
      · rw [atD_append_len]
        rfl
      · have hlen2 : (g.blocks ++ [BasicBlock.new a]).length ≤ j := by
          simp
          omega
        rw [atD_default hlen2]
        rfl

theorem insert_step_facts {g : ControlFlowGraph} {curr : BasicBlock} {pc : Nat}
    {v : BlockType}
    (hcur : g.current_block < g.blocks.length)
    (hc : g.blocks[g.current_block]? = some curr) :
    ∀ gI : ControlFlowGraph,
      gI = (if curr.start ≤ pc ∧ pc ≤ curr.end_ then { g with blocks := g.blocks.set g.current_block (curr.add_instruction pc v) } else g) →
      gI.current_block = g.current_block ∧
      gI.blocks.length = g.blocks.length ∧
      (∀ j, (atD gI.blocks j).start = (atD g.blocks j).start) ∧
      (∀ j, (atD gI.blocks j).edges = (atD g.blocks j).edges) ∧
      ((∀ b ∈ g.blocks, b.end_ = b.start) →
        (∀ j, (atD gI.blocks j).end_ = (atD g.blocks j).end_) ∧
        (∀ b ∈ gI.blocks, b.end_ = b.start)) := by
  intro gI hgI
  have hcurr : curr = atD g.blocks g.current_block := by
    have h2 := atD_getElem (l := g.blocks) hcur
    rw [hc] at h2
    exact Option.some.inj h2
  by_cases hrange : curr.start ≤ pc ∧ pc ≤ curr.end_
  · subst hgI
    rw [if_pos hrange]
    refine ⟨rfl, by simp, ?_, ?_, ?_⟩
    · intro j
      by_cases hcj : g.current_block = j
      · subst hcj
        rw [atD_set_self _ hcur]
        simp [BasicBlock.add_instruction, hcurr]
      · rw [atD_set_ne _ hcj]
    · intro j
      by_cases hcj : g.current_block = j
      · subst hcj
        rw [atD_set_self _ hcur]
        simp [BasicBlock.add_instruction, hcurr]
      · rw [atD_set_ne _ hcj]
    · intro hends
      have hcs : curr.end_ = curr.start := hends _ (List.getElem?_mem hc)
      have hpc : pc = curr.start := by omega
      constructor
      · intro j
        by_cases hcj : g.current_block = j
        · subst hcj
          rw [atD_set_self _ hcur, ← hcurr]
          simp [BasicBlock.add_instruction, hpc, hcs]
        · rw [atD_set_ne _ hcj]
      · intro b hb
        rcases List.mem_or_eq_of_mem_set hb with h | rfl
        · exact hends _ h
        · simp [BasicBlock.add_instruction, hpc]
  · subst hgI
    rw [if_neg hrange]
    exact ⟨rfl, rfl, fun j => rfl, fun j => rfl, fun hends => ⟨fun j => rfl, hends⟩⟩

/-- The jump targets an instruction resolves already have blocks. -/
def targetsExist (g : ControlFlowGraph) (instr : BlockType) : Prop :=
  match instr with
  | .instruction _ _ => True
  | .jump _ sa jt fa =>
      match jt with
      | .unconditionalJump => hasBlockAt g sa
      | .conditionalTaken =>
          match fa with
          | none => True
          | some f => hasBlockAt g sa ∧ hasBlockAt g f
      | .conditionalNotTaken =>
          match fa with
          | none => True
          | some f => hasBlockAt g sa ∧ hasBlockAt g f

theorem hasBlockAt_transport {g g' : ControlFlowGraph} {a : Nat}
    (hlen : g.blocks.length ≤ g'.blocks.length)
    (hpres : ∀ j, j < g.blocks.length →
      (atD g'.blocks j).start = (atD g.blocks j).start)
    (h : hasBlockAt g a) : hasBlockAt g' a := by
  obtain ⟨j, hj, hs⟩ := h
  rw [blockAt_eq_atD] at hs
  refine ⟨j, Nat.lt_of_lt_of_le hj hlen, ?_⟩
  rw [blockAt_eq_atD, hpres j hj]
  exact hs

theorem execute_spec {g : ControlFlowGraph} (hg : GoodCFG g) (pc : Nat)
    (instr : BlockType) :
    GoodCFG (g.execute pc instr).2 ∧
    g.blocks.length ≤ (g.execute pc instr).2.blocks.length ∧
    ((g.execute pc instr).1 = none ∨
      (g.execute pc instr).1 = some CFGError.expectedFailureAddress) ∧
    (∀ j, j < g.blocks.length →
      (atD (g.execute pc instr).2.blocks j).start = (atD g.blocks j).start) ∧
    (∀ j, j < g.blocks.length →
      (atD (g.execute pc instr).2.blocks j).end_ = (atD g.blocks j).end_) ∧
    (targetsExist g instr → (g.execute pc instr).2.blocks.length = g.blocks.length) ∧
    targetsExist (g.execute pc instr).2 instr := by
  obtain ⟨hcur, hends⟩ := hg
  have hc : g.blocks[g.current_block]? = some (atD g.blocks g.current_block) :=
    atD_getElem hcur
  cases instr with
  | instruction name operand =>
      simp only [ControlFlowGraph.execute]
      split
      next hnone => rw [hnone] at hc; cases hc
      next curr hsome =>
        have hcurr : curr = atD g.blocks g.current_block := by
          rw [hsome] at hc
          exact Option.some.inj hc
        obtain ⟨hIcur, hIlen, hIstart, hIedges, hIendsF⟩ :=
          insert_step_facts (v := BlockType.instruction name operand) hcur hsome _ rfl
        obtain ⟨hIend, hIgood⟩ := hIendsF hends
        by_cases hrange : curr.start ≤ pc ∧ pc ≤ curr.end_
        · rw [if_pos hrange] at hIcur hIlen hIstart hIedges hIend hIgood ⊢
          refine ⟨⟨by simpa using hcur, hIgood⟩, by simp, Or.inl (by trivial),
            fun j hj => hIstart j, fun j hj => hIend j, fun _ => by simp,
            trivial⟩
        · rw [if_neg hrange] at hIcur hIlen hIstart hIedges hIend hIgood ⊢
          exact ⟨⟨hcur, hends⟩, Nat.le_refl _, Or.inl (by trivial),
            fun j hj => rfl, fun j hj => rfl, fun _ => rfl, trivial⟩
  | jump name sa jt fa =>
      cases jt with
      | unconditionalJump =>
          simp only [ControlFlowGraph.execute]
          split
          next hnone => rw [hnone] at hc; cases hc
          next curr hsome =>
            obtain ⟨hIcur, hIlen, hIstart, hIedges, hIendsF⟩ :=
              insert_step_facts
                (v := BlockType.jump name sa JumpType.unconditionalJump fa)
                hcur hsome _ rfl
            obtain ⟨hIend, hIgood⟩ := hIendsF hends
            set gI := (if curr.start ≤ pc ∧ pc ≤ curr.end_ then { g with blocks := g.blocks.set g.current_block (curr.add_instruction pc (BlockType.jump name sa JumpType.unconditionalJump fa)) } else g) with hgI
            have hcurI : gI.current_block < gI.blocks.length := by
              rw [hIcur, hIlen]
              exact hcur
            obtain ⟨si, g', heq, hscur, hsclt, hmono, hsstart, hp1, hp2, hp3,
              hendsT, hlenT, hempty⟩ := uncondStep_spec (a := sa) hcurI
            rw [heq]
            simp only [targetsExist]
            refine ⟨⟨hsclt, hendsT hIgood⟩, ?_, Or.inl (by trivial), ?_, ?_, ?_, ?_⟩
            · calc g.blocks.length = gI.blocks.length := hIlen.symm
                _ ≤ g'.blocks.length := hmono
            · intro j hj
              rw [hp1 j (by rw [hIlen]; exact hj), hIstart j]
            · intro j hj
              rw [hp2 j (by rw [hIlen]; exact hj), hIend j]
            · intro hsa
              rw [hlenT (hasBlockAt_transport (Nat.le_of_eq hIlen.symm)
                (fun j hj => hIstart j) hsa), hIlen]
            · exact ⟨si, by rw [← hscur]; exact hsclt, hsstart⟩
      | conditionalTaken =>
          cases fa with
          | none =>
              simp only [ControlFlowGraph.execute]
              split
              next hnone => rw [hnone] at hc; cases hc
              next curr hsome =>
                obtain ⟨hIcur, hIlen, hIstart, hIedges, hIendsF⟩ :=
                  insert_step_facts
                    (v := BlockType.jump name sa JumpType.conditionalTaken none)
                    hcur hsome _ rfl
                obtain ⟨hIend, hIgood⟩ := hIendsF hends
                set gI := (if curr.start ≤ pc ∧ pc ≤ curr.end_ then { g with blocks := g.blocks.set g.current_block (curr.add_instruction pc (BlockType.jump name sa JumpType.conditionalTaken none)) } else g) with hgI
                have hcurI : gI.current_block < gI.blocks.length := by
                  rw [hIcur, hIlen]
                  exact hcur
                simp only [targetsExist]
                exact ⟨⟨hcurI, hIgood⟩, Nat.le_of_eq hIlen.symm, Or.inr (by trivial),
                  fun j hj => hIstart j, fun j hj => hIend j,
                  fun _ => hIlen, trivial⟩
          | some f =>
              simp only [ControlFlowGraph.execute]
              split
              next hnone => rw [hnone] at hc; cases hc
              next curr hsome =>
                obtain ⟨hIcur, hIlen, hIstart, hIedges, hIendsF⟩ :=
                  insert_step_facts
                    (v := BlockType.jump name sa JumpType.conditionalTaken (some f))
                    hcur hsome _ rfl
                obtain ⟨hIend, hIgood⟩ := hIendsF hends
                set gI := (if curr.start ≤ pc ∧ pc ≤ curr.end_ then { g with blocks := g.blocks.set g.current_block (curr.add_instruction pc (BlockType.jump name sa JumpType.conditionalTaken (some f))) } else g) with hgI
                have hcurI : gI.current_block < gI.blocks.length := by
                  rw [hIcur, hIlen]
                  exact hcur
                obtain ⟨fi, g1, heq1, hfi1, hcb1, hclt1, hfilt1, hmono1,
                  hstart1, hedges1, hq1, hw1, he1, hendsT1, hlenT1, hempty1⟩ :=
                  resolveEdge_spec (a := f) hcurI
                simp only [heq1]
                obtain ⟨si, g2, heq2, hfi2, hcb2, hclt2, hfilt2, hmono2,
                  hstart2, hedges2, hq2, hw2, he2, hendsT2, hlenT2, hempty2⟩ :=
                  resolveEdgeCursor_spec (a := sa) hclt1
                simp only [heq2]
                simp only [targetsExist]
                have hlen1 : g.blocks.length ≤ g1.blocks.length := by
                  rw [← hIlen]
                  exact hmono1
                refine ⟨⟨hclt2, hendsT2 (hendsT1 hIgood)⟩, ?_, Or.inl (by trivial),
                  ?_, ?_, ?_, ?_, ?_⟩
                · exact Nat.le_trans hlen1 hmono2
                · intro j hj
                  rw [hq2 j (Nat.lt_of_lt_of_le hj hlen1),
                    hq1 j (by rw [hIlen]; exact hj), hIstart j]
                · intro j hj
                  rw [hw2 j (Nat.lt_of_lt_of_le hj hlen1),
                    hw1 j (by rw [hIlen]; exact hj), hIend j]
                · rintro ⟨hsa, hf⟩
                  have hfI : hasBlockAt gI f := hasBlockAt_transport
                    (Nat.le_of_eq hIlen.symm) (fun j hj => hIstart j) hf
                  have hsa1 : hasBlockAt g1 sa := hasBlockAt_transport hlen1
                    (fun j hj => by
                      rw [hq1 j (by rw [hIlen]; exact hj), hIstart j]) hsa
                  rw [hlenT2 hsa1, hlenT1 hfI, hIlen]
                · exact ⟨si, by rw [← hcb2]; exact hclt2, hstart2⟩
                · refine ⟨fi, Nat.lt_of_lt_of_le hfilt1 hmono2, ?_⟩
                  rw [blockAt_eq_atD, hq2 fi hfilt1]
                  exact hstart1
      | conditionalNotTaken =>
          cases fa with
          | none =>
              simp only [ControlFlowGraph.execute]
              split
              next hnone => rw [hnone] at hc; cases hc
              next curr hsome =>
                obtain ⟨hIcur, hIlen, hIstart, hIedges, hIendsF⟩ :=
                  insert_step_facts
                    (v := BlockType.jump name sa JumpType.conditionalNotTaken none)
                    hcur hsome _ rfl
                obtain ⟨hIend, hIgood⟩ := hIendsF hends
                set gI := (if curr.start ≤ pc ∧ pc ≤ curr.end_ then { g with blocks := g.blocks.set g.current_block (curr.add_instruction pc (BlockType.jump name sa JumpType.conditionalNotTaken none)) } else g) with hgI
                have hcurI : gI.current_block < gI.blocks.length := by
                  rw [hIcur, hIlen]
                  exact hcur
                simp only [targetsExist]
                exact ⟨⟨hcurI, hIgood⟩, Nat.le_of_eq hIlen.symm, Or.inr (by trivial),
                  fun j hj => hIstart j, fun j hj => hIend j,
                  fun _ => hIlen, trivial⟩
          | some f =>
              simp only [ControlFlowGraph.execute]
              split
              next hnone => rw [hnone] at hc; cases hc
              next curr hsome =>
                obtain ⟨hIcur, hIlen, hIstart, hIedges, hIendsF⟩ :=
                  insert_step_facts
                    (v := BlockType.jump name sa JumpType.conditionalNotTaken (some f))
                    hcur hsome _ rfl
                obtain ⟨hIend, hIgood⟩ := hIendsF hends
                set gI := (if curr.start ≤ pc ∧ pc ≤ curr.end_ then { g with blocks := g.blocks.set g.current_block (curr.add_instruction pc (BlockType.jump name sa JumpType.conditionalNotTaken (some f))) } else g) with hgI
                have hcurI : gI.current_block < gI.blocks.length := by
                  rw [hIcur, hIlen]
                  exact hcur
                obtain ⟨fi, g1, heq1, hfi1, hcb1, hclt1, hfilt1, hmono1,
                  hstart1, hedges1, hq1, hw1, he1, hendsT1, hlenT1, hempty1⟩ :=
                  resolveEdge_spec (a := sa) hcurI
                simp only [heq1]
                obtain ⟨si, g2, heq2, hfi2, hcb2, hclt2, hfilt2, hmono2,
                  hstart2, hedges2, hq2, hw2, he2, hendsT2, hlenT2, hempty2⟩ :=
                  resolveEdgeCursor_spec (a := f) hclt1
                simp only [heq2]
                simp only [targetsExist]
                have hlen1 : g.blocks.length ≤ g1.blocks.length := by
                  rw [← hIlen]
                  exact hmono1
                refine ⟨⟨hclt2, hendsT2 (hendsT1 hIgood)⟩, ?_, Or.inl (by trivial),
                  ?_, ?_, ?_, ?_, ?_⟩
                · exact Nat.le_trans hlen1 hmono2
                · intro j hj
                  rw [hq2 j (Nat.lt_of_lt_of_le hj hlen1),
                    hq1 j (by rw [hIlen]; exact hj), hIstart j]
                · intro j hj
                  rw [hw2 j (Nat.lt_of_lt_of_le hj hlen1),
                    hw1 j (by rw [hIlen]; exact hj), hIend j]
                · rintro ⟨hsa, hf⟩
                  have hsaI : hasBlockAt gI sa := hasBlockAt_transport
                    (Nat.le_of_eq hIlen.symm) (fun j hj => hIstart j) hsa
                  have hf1 : hasBlockAt g1 f := hasBlockAt_transport hlen1
                    (fun j hj => by
                      rw [hq1 j (by rw [hIlen]; exact hj), hIstart j]) hf
                  rw [hlenT2 hf1, hlenT1 hsaI, hIlen]
                · refine ⟨fi, Nat.lt_of_lt_of_le hfilt1 hmono2, ?_⟩
                  rw [blockAt_eq_atD, hq2 fi hfilt1]
                  exact hstart1
                · exact ⟨si, by rw [← hcb2]; exact hclt2, hstart2⟩

theorem good_new (e : Nat) : GoodCFG (ControlFlowGraph.new e) := by
  constructor
  · simp [ControlFlowGraph.new]
  · intro b hb
    simp [ControlFlowGraph.new, BasicBlock.new] at hb
    subst hb
    rfl

theorem good_runTrace : ∀ (tr : List (Nat × BlockType)) (g : ControlFlowGraph),
    GoodCFG g → GoodCFG (runTrace g tr)
  | [], _, hg => hg
  | p :: rest, g, hg =>
      good_runTrace rest (g.execute p.1 p.2).2 ((execute_spec hg p.1 p.2).1)

/-! ### Claims -/

/-- C10: `ControlFlowGraph::add_edge` returns `MissingBlock` exactly when
`src_block` or `dest_block` is out of range, leaves the graph unchanged in
that case, and otherwise appends `dest_block` to `src_block`'s edge list
and returns `Ok`. -/
theorem C10_add_edge_contract (g : ControlFlowGraph) (s d : Nat) :
    ((g.add_edge s d).1 = some CFGError.missingBlock ↔
      ¬(s < g.blocks.length ∧ d < g.blocks.length)) ∧
    ((g.add_edge s d).1 ≠ none → (g.add_edge s d).2 = g) ∧
    (∀ (hs : s < g.blocks.length), d < g.blocks.length →
      (g.add_edge s d).1 = none ∧
      (g.add_edge s d).2.current_block = g.current_block ∧
      (g.add_edge s d).2.blocks
        = g.blocks.set s { g.blocks.get ⟨s, hs⟩ with edges := (g.blocks.get ⟨s, hs⟩).edges ++ [d] }) := by
  by_cases h : s < g.blocks.length ∧ d < g.blocks.length
  · obtain ⟨hs, hd⟩ := h
    rw [cfg_add_edge_ok hs hd]
    refine ⟨by simp [hs, hd], fun hne => absurd rfl hne, ?_⟩
    intro hs' hd'
    refine ⟨rfl, rfl, ?_⟩
    simp [ControlFlowGraph.blockAt, BasicBlock.add_edge,
      List.getElem?_eq_getElem hs, List.get_eq_getElem]
  · rw [cfg_add_edge_err h]
    refine ⟨by simp [h], fun _ => rfl, ?_⟩
    intro hs hd
    exact absurd ⟨hs, hd⟩ h

/-- Witness for C10 at concrete inputs: a valid pair appends the edge, an
invalid destination reports `MissingBlock` and leaves the graph unchanged. -/
theorem C10_add_edge_contract_witness :
    ((ControlFlowGraph.new 2).add_edge 0 0).1 = none ∧
    ((ControlFlowGraph.new 2).add_edge 0 5).1 = some CFGError.missingBlock ∧
    ((ControlFlowGraph.new 2).add_edge 0 5).2 = ControlFlowGraph.new 2 :=
  ⟨((C10_add_edge_contract (ControlFlowGraph.new 2) 0 0).2.2 (by decide) (by decide)).1,
   (C10_add_edge_contract (ControlFlowGraph.new 2) 0 5).1.mpr (by decide),
   (C10_add_edge_contract (ControlFlowGraph.new 2) 0 5).2.1 (by decide)⟩

/-- C2 counterexample: adding an edge to target 1 twice produces two edge
entries (the code's `add_edge` is an unconditional push with no
de-duplication and no counts). -/
theorem C2_counterexample :
    (((BasicBlock.new 0).add_edge 1).add_edge 1).edges = [1, 1] ∧
    (((BasicBlock.new 0).add_edge 1).add_edge 1).edges.count 1 = 2 := by
  decide

/-- C2 amended: `BasicBlock::add_edge` appends unconditionally; every
addition creates its own entry, so the number of entries for a target is
the number of additions to that target (no traversed flag exists). -/
theorem C2_add_edge_append (b : BasicBlock) (t t' : Nat) :
    (b.add_edge t).edges = b.edges ++ [t] ∧
    (b.add_edge t).edges.length = b.edges.length + 1 ∧
    (b.add_edge t).edges.count t'
      = b.edges.count t' + (if t = t' then 1 else 0) := by
  refine ⟨rfl, by simp [BasicBlock.add_edge], ?_⟩
  simp [BasicBlock.add_edge, List.count_append, List.count_cons, List.count_nil]

/-- C6 counterexample: after adding addresses 2 then 3, `end` is 3; calling
`add_instruction` again with the already-present address 2 moves `end` back
to 2 instead of leaving it unchanged. -/
theorem C6_counterexample :
    (((BasicBlock.new 2).add_instruction 2 (.instruction "A" "")).add_instruction 3 (.instruction "B" "")).end_ = 3 ∧
    ((((BasicBlock.new 2).add_instruction 2 (.instruction "A" "")).add_instruction 3 (.instruction "B" "")).add_instruction 2 (.instruction "A" "")).end_ = 2 := by
  decide

/-- Folding a list of `(address, instruction)` pairs into a block through
`add_instruction`. -/
def addInstructions (b : BasicBlock) (l : List (Nat × BlockType)) : BasicBlock :=
  l.foldl (fun b p => b.add_instruction p.1 p.2) b

theorem addInstructions_last : ∀ (l : List (Nat × BlockType)) (b : BasicBlock)
    (hl : l ≠ []), (addInstructions b l).end_ = (l.getLast hl).1
  | [p], _, _ => by simp [addInstructions, BasicBlock.add_instruction]
  | p :: q :: rest, b, _ => by
      have h := addInstructions_last (q :: rest) (b.add_instruction p.1 p.2)
        (by simp)
      simpa [addInstructions, List.getLast] using h

theorem sorted_le_last : ∀ (l : List (Nat × BlockType)) (hl : l ≠ []),
    List.Pairwise (fun p q => p.1 < q.1) l →
    ∀ p ∈ l, p.1 ≤ (l.getLast hl).1
  | [q], _, _, p, hp => by
      simp at hp
      subst hp
      simp
  | q :: r :: rest, _, hpw, p, hp => by
      rcases List.mem_cons.mp hp with rfl | hp'
      · have hqr : p.1 < r.1 := (List.pairwise_cons.mp hpw).1 r (by simp)
        have hr := sorted_le_last (r :: rest) (by simp)
          (List.pairwise_cons.mp hpw).2 r (by simp)
        calc p.1 ≤ r.1 := Nat.le_of_lt hqr
          _ ≤ ((r :: rest).getLast (by simp)).1 := hr
          _ = ((p :: r :: rest).getLast (by simp)).1 := by
              rw [List.getLast_cons_cons]
      · have h := sorted_le_last (r :: rest) (by simp)
          (List.pairwise_cons.mp hpw).2 p hp'
        calc p.1 ≤ ((r :: rest).getLast (by simp)).1 := h
          _ = ((q :: r :: rest).getLast (by simp)).1 := by
              rw [List.getLast_cons_cons]

/-- C6 amended: `end` is always the address of the most-recently-added
instruction (even on a re-added, already-present address, which can move
`end` backwards); after any sequence of `add_instruction` calls with
strictly increasing addresses, `end` equals the last — hence greatest —
address inserted. -/
theorem C6_end_tracks_last_insert (b : BasicBlock) (a : Nat) (v : BlockType)
    (l : List (Nat × BlockType)) (hl : l ≠ [])
    (hsorted : List.Pairwise (fun p q => p.1 < q.1) l) :
    (b.add_instruction a v).end_ = a ∧
    (addInstructions b l).end_ = (l.getLast hl).1 ∧
    (∀ p ∈ l, p.1 ≤ (l.getLast hl).1) := by
  exact ⟨rfl, addInstructions_last l b hl, sorted_le_last l hl hsorted⟩

/-- Witness for C6 amended: inserting at 2 then 5 yields `end = 5`, which
is the greatest of the two strictly increasing addresses. -/
theorem C6_end_tracks_last_insert_witness :
    ((BasicBlock.new 2).add_instruction 7 (.instruction "A" "")).end_ = 7 ∧
    (addInstructions (BasicBlock.new 2)
      [(2, .instruction "A" ""), (5, .instruction "B" "")]).end_
      = ([(2, BlockType.instruction "A" ""), (5, BlockType.instruction "B" "")].getLast (by decide)).1 ∧
    (∀ p ∈ [(2, BlockType.instruction "A" ""), (5, BlockType.instruction "B" "")],
      p.1 ≤ ([(2, BlockType.instruction "A" ""), (5, BlockType.instruction "B" "")].getLast (by decide)).1) :=
  C6_end_tracks_last_insert (BasicBlock.new 2) 7 (.instruction "A" "")
    [(2, .instruction "A" ""), (5, .instruction "B" "")] (by decide)
    (by decide)

/-- C5 counterexample: with a fresh graph at entry 2 the address 3 is
absent from the current block's table, yet `execute(3, Plain)` appends
nothing — the range check `start ≤ pc ≤ end` silently drops it and the
graph is returned unchanged. -/
theorem C5_counterexample :
    (((ControlFlowGraph.new 2).blockAt 0).block = []) ∧
    ((ControlFlowGraph.new 2).execute 3 (.instruction "INC" "")).2
      = ControlFlowGraph.new 2 := by
  decide

/-- C5 amended: a Plain instruction is appended to the current block iff
`start ≤ pc ≤ end`; outside that range it is silently dropped. The call
always succeeds, and the cursor and the block count are unchanged either
way. -/
theorem C5_plain_range_gated {g : ControlFlowGraph}
    (hcur : g.current_block < g.blocks.length) (pc : Nat)
    (name operand : String) :
    (g.execute pc (.instruction name operand)).1 = none ∧
    (g.execute pc (.instruction name operand)).2.current_block = g.current_block ∧
    (g.execute pc (.instruction name operand)).2.blocks.length = g.blocks.length ∧
    ((g.blockAt g.current_block).start ≤ pc ∧ pc ≤ (g.blockAt g.current_block).end_ →
      (g.execute pc (.instruction name operand)).2.blocks
        = g.blocks.set g.current_block
            ((g.blockAt g.current_block).add_instruction pc (.instruction name operand))) ∧
    (¬((g.blockAt g.current_block).start ≤ pc ∧ pc ≤ (g.blockAt g.current_block).end_) →
      (g.execute pc (.instruction name operand)).2 = g) := by
  have hc : g.blocks[g.current_block]? = some (atD g.blocks g.current_block) :=
    atD_getElem hcur
  simp only [ControlFlowGraph.execute]
  split
  next hnone => rw [hnone] at hc; cases hc
  next curr hsome =>
    have hcurr : curr = atD g.blocks g.current_block := by
      rw [hsome] at hc
      exact Option.some.inj hc
    have hba : g.blockAt g.current_block = curr := by
      rw [blockAt_eq_atD, ← hcurr]
    by_cases hrange : curr.start ≤ pc ∧ pc ≤ curr.end_
    · rw [if_pos hrange]
      refine ⟨by trivial, rfl, by simp, fun h => by rw [hba], fun h => ?_⟩
      rw [hba] at h
      exact absurd hrange h
    · rw [if_neg hrange]
      refine ⟨by trivial, rfl, rfl, fun h => ?_, fun h => rfl⟩
      rw [hba] at h
      exact absurd h hrange

/-- Witness for C5 amended: at entry 2, `execute(2, Plain)` inserts at the
start address; `execute(3, Plain)` leaves the graph unchanged. -/
theorem C5_plain_range_gated_witness :
    ((ControlFlowGraph.new 2).execute 2 (.instruction "INC" "")).1 = none ∧
    ((ControlFlowGraph.new 2).execute 3 (.instruction "INC" "")).2
      = ControlFlowGraph.new 2 :=
  ⟨(C5_plain_range_gated (g := ControlFlowGraph.new 2) (by decide) 2 "INC" "").1,
   (C5_plain_range_gated (g := ControlFlowGraph.new 2) (by decide) 3 "INC" "").2.2.2.2
     (by decide)⟩

/-- C7: a conditional jump with no failure address yields
`ExpectedFailureAddress`, and beyond the already-performed instruction
append nothing is mutated: block count, every block's edge list and the
cursor are all unchanged. -/
theorem C7_missing_failure_address {g : ControlFlowGraph}
    (hcur : g.current_block < g.blocks.length) (pc sa : Nat) (name : String)
    (jt : JumpType)
    (hjt : jt = JumpType.conditionalTaken ∨ jt = JumpType.conditionalNotTaken) :
    (g.execute pc (.jump name sa jt none)).1 = some CFGError.expectedFailureAddress ∧
    (g.execute pc (.jump name sa jt none)).2.current_block = g.current_block ∧
    (g.execute pc (.jump name sa jt none)).2.blocks.length = g.blocks.length ∧
    (∀ j, (atD (g.execute pc (.jump name sa jt none)).2.blocks j).edges
      = (atD g.blocks j).edges) := by
  have hc : g.blocks[g.current_block]? = some (atD g.blocks g.current_block) :=
    atD_getElem hcur
  rcases hjt with rfl | rfl <;>
  · simp only [ControlFlowGraph.execute]
    split
    next hnone => rw [hnone] at hc; cases hc
    next curr hsome =>
      obtain ⟨hIcur, hIlen, hIstart, hIedges, hIendsF⟩ :=
        insert_step_facts hcur hsome _ rfl
      exact ⟨by trivial, hIcur, hIlen, hIedges⟩

/-- Witness for C7: a `ConditionalTaken` jump at the fresh entry graph with
no failure address errors out and leaves block count, cursor and edges
untouched. -/
theorem C7_missing_failure_address_witness :
    (((ControlFlowGraph.new 2).execute 2
        (.jump "JMP" 9 JumpType.conditionalTaken none)).1
      = some CFGError.expectedFailureAddress) ∧
    (((ControlFlowGraph.new 2).execute 2
        (.jump "JMP" 9 JumpType.conditionalTaken none)).2.current_block
      = (ControlFlowGraph.new 2).current_block) ∧
    (((ControlFlowGraph.new 2).execute 2
        (.jump "JMP" 9 JumpType.conditionalTaken none)).2.blocks.length
      = (ControlFlowGraph.new 2).blocks.length) ∧
    (∀ j, (atD ((ControlFlowGraph.new 2).execute 2
        (.jump "JMP" 9 JumpType.conditionalTaken none)).2.blocks j).edges
      = (atD (ControlFlowGraph.new 2).blocks j).edges) :=
  C7_missing_failure_address (g := ControlFlowGraph.new 2) (by decide) 2 9 "JMP"
    JumpType.conditionalTaken (Or.inl rfl)

/-- C8 counterexample: at a graph whose current block starts at 5, feeding
`Plain` at program counter 3 (below `start`) reports no error at all — the
call returns `Ok` and the instruction is silently dropped. -/
theorem C8_counterexample :
    3 < ((ControlFlowGraph.new 5).blockAt 0).start ∧
    ((ControlFlowGraph.new 5).execute 3 (.instruction "INC" "")).1 = none ∧
    ((ControlFlowGraph.new 5).execute 3 (.instruction "INC" "")).2
      = ControlFlowGraph.new 5 := by
  decide

/-- C8 amended: a program counter below the current block's `start` is
never reported as an error: a Plain instruction is silently dropped with
`Ok` and an unchanged graph, and a jump's append is likewise skipped — no
block's instruction table changes — while transfer resolution still runs. -/
theorem C8_low_pc_silently_skipped {g : ControlFlowGraph}
    (hcur : g.current_block < g.blocks.length) {pc : Nat}
    (hlt : pc < (g.blockAt g.current_block).start) :
    (∀ name operand, g.execute pc (.instruction name operand) = (none, g)) ∧
    (∀ name sa jt fa j,
      (atD ((g.execute pc (.jump name sa jt fa)).2).blocks j).block
        = (atD g.blocks j).block) := by
  have hc : g.blocks[g.current_block]? = some (atD g.blocks g.current_block) :=
    atD_getElem hcur
  rw [blockAt_eq_atD] at hlt
  constructor
  · intro name operand
    simp only [ControlFlowGraph.execute]
    split
    next hnone => rw [hnone] at hc; cases hc
    next curr hsome =>
      have hcurr : curr = atD g.blocks g.current_block := by
        rw [hsome] at hc
        exact Option.some.inj hc
      have hrange : ¬(curr.start ≤ pc ∧ pc ≤ curr.end_) := by
        rw [hcurr]
        intro hr
        omega
      rw [if_neg hrange]
  · intro name sa jt fa j
    cases jt with
    | unconditionalJump =>
        simp only [ControlFlowGraph.execute]
        split
        next hnone => rw [hnone] at hc
        next curr hsome =>
          have hcurr : curr = atD g.blocks g.current_block := by
            rw [hsome] at hc
            exact Option.some.inj hc
          have hrange : ¬(curr.start ≤ pc ∧ pc ≤ curr.end_) := by
            rw [hcurr]
            intro hr
            omega
          rw [if_neg hrange]
          obtain ⟨si, g', heq, hscur, hsclt, hmono, hsstart, hp1, hp2, hp3,
            hendsT, hlenT, hempty⟩ := uncondStep_spec (a := sa) hcur
          rw [heq]
          by_cases hj : j < g.blocks.length
          · exact hp3 j hj
          · rw [hempty j (Nat.le_of_not_lt hj), atD_default (Nat.le_of_not_lt hj)]
            rfl
    | conditionalTaken =>
        cases fa with
        | none =>
            simp only [ControlFlowGraph.execute]
            split
            next hnone => rw [hnone] at hc
            next curr hsome =>
              have hcurr : curr = atD g.blocks g.current_block := by
                rw [hsome] at hc
                exact Option.some.inj hc
              have hrange : ¬(curr.start ≤ pc ∧ pc ≤ curr.end_) := by
                rw [hcurr]
                intro hr
                omega
              rw [if_neg hrange]
        | some f =>
            simp only [ControlFlowGraph.execute]
            split
            next hnone => rw [hnone] at hc
            next curr hsome =>
              have hcurr : curr = atD g.blocks g.current_block := by
                rw [hsome] at hc
                exact Option.some.inj hc
              have hrange : ¬(curr.start ≤ pc ∧ pc ≤ curr.end_) := by
                rw [hcurr]
                intro hr
                omega
              rw [if_neg hrange]
              obtain ⟨fi, g1, heq1, hfi1, hcb1, hclt1, hfilt1, hmono1,
                hstart1, hedges1, hq1, hw1, he1, hendsT1, hlenT1, hempty1⟩ :=
                resolveEdge_spec (a := f) hcur
              simp only [heq1]
              obtain ⟨si, g2, heq2, hfi2, hcb2, hclt2, hfilt2, hmono2,
                hstart2, hedges2, hq2, hw2, he2, hendsT2, hlenT2, hempty2⟩ :=
                resolveEdgeCursor_spec (a := sa) hclt1
              simp only [heq2]
              by_cases hj1 : j < g1.blocks.length
              · rw [he2 j hj1]
                by_cases hj : j < g.blocks.length
                · exact he1 j hj
                · rw [hempty1 j (Nat.le_of_not_lt hj),
                    atD_default (Nat.le_of_not_lt hj)]
                  rfl
              · have hge : g.blocks.length ≤ j :=
                  Nat.le_trans hmono1 (Nat.le_of_not_lt hj1)
                rw [hempty2 j (Nat.le_of_not_lt hj1), atD_default hge]
                rfl
    | conditionalNotTaken =>
        cases fa with
        | none =>
            simp only [ControlFlowGraph.execute]
            split
            next hnone => rw [hnone] at hc
            next curr hsome =>
              have hcurr : curr = atD g.blocks g.current_block := by
                rw [hsome] at hc
                exact Option.some.inj hc
              have hrange : ¬(curr.start ≤ pc ∧ pc ≤ curr.end_) := by
                rw [hcurr]
                intro hr
                omega
              rw [if_neg hrange]
        | some f =>
            simp only [ControlFlowGraph.execute]
            split
            next hnone => rw [hnone] at hc
            next curr hsome =>
              have hcurr : curr = atD g.blocks g.current_block := by
                rw [hsome] at hc
                exact Option.some.inj hc
              have hrange : ¬(curr.start ≤ pc ∧ pc ≤ curr.end_) := by
                rw [hcurr]
                intro hr
                omega
              rw [if_neg hrange]
              obtain ⟨fi, g1, heq1, hfi1, hcb1, hclt1, hfilt1, hmono1,
                hstart1, hedges1, hq1, hw1, he1, hendsT1, hlenT1, hempty1⟩ :=
                resolveEdge_spec (a := sa) hcur
              simp only [heq1]
              obtain ⟨si, g2, heq2, hfi2, hcb2, hclt2, hfilt2, hmono2,
                hstart2, hedges2, hq2, hw2, he2, hendsT2, hlenT2, hempty2⟩ :=
                resolveEdgeCursor_spec (a := f) hclt1
              simp only [heq2]
              by_cases hj1 : j < g1.blocks.length
              · rw [he2 j hj1]
                by_cases hj : j < g.blocks.length
                · exact he1 j hj
                · rw [hempty1 j (Nat.le_of_not_lt hj),
                    atD_default (Nat.le_of_not_lt hj)]
                  rfl
              · have hge : g.blocks.length ≤ j :=
                  Nat.le_trans hmono1 (Nat.le_of_not_lt hj1)
                rw [hempty2 j (Nat.le_of_not_lt hj1), atD_default hge]
                rfl

/-- Witness for C8 amended: entry at 5, program counter 3. -/
theorem C8_low_pc_silently_skipped_witness :
    ((ControlFlowGraph.new 5).execute 3 (.instruction "INC" "")
      = (none, ControlFlowGraph.new 5)) ∧
    (∀ j, (atD (((ControlFlowGraph.new 5).execute 3
        (.jump "JMP" 9 JumpType.unconditionalJump none)).2).blocks j).block
      = (atD (ControlFlowGraph.new 5).blocks j).block) :=
  ⟨(C8_low_pc_silently_skipped (g := ControlFlowGraph.new 5) (by decide)
      (by decide)).1 "INC" "",
   fun j => (C8_low_pc_silently_skipped (g := ControlFlowGraph.new 5)
      (by decide) (by decide)).2 "JMP" 9 JumpType.unconditionalJump none j⟩

/-- C9: after `new(entry)` and any sequence of `execute` calls, `blocks` is
non-empty, `current_block` indexes a valid block, and a further `execute`
can never return `MissingCurrentBlock`. -/
theorem C9_cursor_always_valid (entry : Nat) (tr : List (Nat × BlockType)) :
    0 < (runTrace (ControlFlowGraph.new entry) tr).blocks.length ∧
    (runTrace (ControlFlowGraph.new entry) tr).current_block
      < (runTrace (ControlFlowGraph.new entry) tr).blocks.length ∧
    ∀ pc instr,
      ((runTrace (ControlFlowGraph.new entry) tr).execute pc instr).1
        ≠ some CFGError.missingCurrentBlock := by
  have hg := good_runTrace tr (ControlFlowGraph.new entry) (good_new entry)
  refine ⟨Nat.lt_of_le_of_lt (Nat.zero_le _) hg.1, hg.1, ?_⟩
  intro pc instr
  rcases (execute_spec hg pc instr).2.2.1 with h | h <;> rw [h] <;> simp

/-- C4 counterexample: execute an unconditional jump to 9 at pc 3 on a
fresh graph at entry 5 (the jump lands below the block so it is not
recorded; the target block is created without an edge). Re-executing the
identical pair then inserts the jump into the target block and appends a
self-edge: instruction count and edge list both change. -/
theorem C4_counterexample :
    ((((ControlFlowGraph.new 5).execute 3
        (.jump "J" 3 JumpType.unconditionalJump none)).2.blockAt 1).block = []) ∧
    ((((ControlFlowGraph.new 5).execute 3
        (.jump "J" 3 JumpType.unconditionalJump none)).2.blockAt 1).edges = []) ∧
    (((((ControlFlowGraph.new 5).execute 3
        (.jump "J" 3 JumpType.unconditionalJump none)).2.execute 3
        (.jump "J" 3 JumpType.unconditionalJump none)).2.blockAt 1).block
      = [(3, BlockType.jump "J" 3 JumpType.unconditionalJump none)]) ∧
    (((((ControlFlowGraph.new 5).execute 3
        (.jump "J" 3 JumpType.unconditionalJump none)).2.execute 3
        (.jump "J" 3 JumpType.unconditionalJump none)).2.blockAt 1).edges = [1]) := by
  decide

/-- C4 amended: on any reachable graph, re-invoking `execute` with the same
`(program_counter, instruction)` pair changes neither the block count nor
any block's `end` address; it may however insert the instruction into the
block the cursor moved to and append duplicate edge entries, because the
jump path re-runs edge resolution. -/
theorem C4_reexecution_stable_parts (entry : Nat)
    (tr : List (Nat × BlockType)) (pc : Nat) (instr : BlockType) :
    (((runTrace (ControlFlowGraph.new entry) tr).execute pc instr).2.execute pc instr).2.blocks.length
      = ((runTrace (ControlFlowGraph.new entry) tr).execute pc instr).2.blocks.length ∧
    (((runTrace (ControlFlowGraph.new entry) tr).execute pc instr).2.execute pc instr).2.blocks.map BasicBlock.end_
      = ((runTrace (ControlFlowGraph.new entry) tr).execute pc instr).2.blocks.map BasicBlock.end_ := by
  have hg := good_runTrace tr (ControlFlowGraph.new entry) (good_new entry)
  obtain ⟨hg1, hmono1, -, -, -, -, htargets⟩ := execute_spec hg pc instr
  obtain ⟨-, -, -, -, hends2, hlen2, -⟩ := execute_spec hg1 pc instr
  have hlen := hlen2 htargets
  refine ⟨hlen, ?_⟩
  apply List.ext_getElem?
  intro j
  by_cases hj : j < ((runTrace (ControlFlowGraph.new entry) tr).execute pc instr).2.blocks.length
  · rw [List.getElem?_map, List.getElem?_map, atD_getElem hj,
      atD_getElem (by rwa [hlen])]
    simp [hends2 j hj]
  · rw [List.getElem?_map, List.getElem?_map,
      List.getElem?_eq_none (Nat.le_of_not_lt hj),
      List.getElem?_eq_none (by rw [hlen]; exact Nat.le_of_not_lt hj)]

/-- C3 counterexample: in the conditional-taken scenario the failure block
is block 1 (start 6), and block 0's edge list records the edge to it once —
there is no traversed flag or count in the code, so the claimed
"edge to the failure block with count 0" is false: the only available
count (the entry's multiplicity) is 1. -/
theorem C3_counterexample :
    ((runTrace (ControlFlowGraph.new 2)
      [(3, .instruction "INC" ""), (4, .instruction "LDAC" "Op"),
       (5, .jump "JMP" 9 JumpType.conditionalTaken (some 6))]).blockAt 1).start = 6 ∧
    ((runTrace (ControlFlowGraph.new 2)
      [(3, .instruction "INC" ""), (4, .instruction "LDAC" "Op"),
       (5, .jump "JMP" 9 JumpType.conditionalTaken (some 6))]).blockAt 0).edges.count 1 = 1 := by
  decide

/-- C3 amended: a conditional jump with a failure address installs both
edges as plain entries appended to the current block's edge list —
failure first then success for `ConditionalTaken`, success first then
failure for `ConditionalNotTaken` — with no traversed flag recorded, and
moves the cursor to the executed branch's block; in the conditional-taken
scenario the graph ends with 3 blocks, block 0's edges being exactly
`[1, 2]` (failure block 1 at 6, then success block 2 at 9) and the cursor
at the success block. -/
theorem C3_conditional_edges {g : ControlFlowGraph} (hg : GoodCFG g)
    (pc sa f : Nat) (name : String) :
    (∃ fi si,
      (g.execute pc (.jump name sa JumpType.conditionalTaken (some f))).1 = none ∧
      (g.execute pc (.jump name sa JumpType.conditionalTaken (some f))).2.current_block = si ∧
      (atD (g.execute pc (.jump name sa JumpType.conditionalTaken (some f))).2.blocks si).start = sa ∧
      (atD (g.execute pc (.jump name sa JumpType.conditionalTaken (some f))).2.blocks fi).start = f ∧
      (atD (g.execute pc (.jump name sa JumpType.conditionalTaken (some f))).2.blocks g.current_block).edges
        = (atD g.blocks g.current_block).edges ++ [fi, si]) ∧
    (∃ fi si,
      (g.execute pc (.jump name sa JumpType.conditionalNotTaken (some f))).1 = none ∧
      (g.execute pc (.jump name sa JumpType.conditionalNotTaken (some f))).2.current_block = fi ∧
      (atD (g.execute pc (.jump name sa JumpType.conditionalNotTaken (some f))).2.blocks si).start = sa ∧
      (atD (g.execute pc (.jump name sa JumpType.conditionalNotTaken (some f))).2.blocks fi).start = f ∧
      (atD (g.execute pc (.jump name sa JumpType.conditionalNotTaken (some f))).2.blocks g.current_block).edges
        = (atD g.blocks g.current_block).edges ++ [si, fi]) ∧
    ((runTrace (ControlFlowGraph.new 2)
        [(3, .instruction "INC" ""), (4, .instruction "LDAC" "Op"),
         (5, .jump "JMP" 9 JumpType.conditionalTaken (some 6))]).blocks.length = 3 ∧
     ((runTrace (ControlFlowGraph.new 2)
        [(3, .instruction "INC" ""), (4, .instruction "LDAC" "Op"),
         (5, .jump "JMP" 9 JumpType.conditionalTaken (some 6))]).blockAt 0).edges = [1, 2] ∧
     ((runTrace (ControlFlowGraph.new 2)
        [(3, .instruction "INC" ""), (4, .instruction "LDAC" "Op"),
         (5, .jump "JMP" 9 JumpType.conditionalTaken (some 6))]).blockAt 1).start = 6 ∧
     ((runTrace (ControlFlowGraph.new 2)
        [(3, .instruction "INC" ""), (4, .instruction "LDAC" "Op"),
         (5, .jump "JMP" 9 JumpType.conditionalTaken (some 6))]).blockAt 2).start = 9 ∧
     (runTrace (ControlFlowGraph.new 2)
        [(3, .instruction "INC" ""), (4, .instruction "LDAC" "Op"),
         (5, .jump "JMP" 9 JumpType.conditionalTaken (some 6))]).current_block = 2) := by
  obtain ⟨hcur, hends⟩ := hg
  have hc : g.blocks[g.current_block]? = some (atD g.blocks g.current_block) :=
    atD_getElem hcur
  refine ⟨?_, ?_, by decide⟩
  · simp only [ControlFlowGraph.execute]
    split
    next hnone => rw [hnone] at hc; cases hc
    next curr hsome =>
      obtain ⟨hIcur, hIlen, hIstart, hIedges, hIendsF⟩ :=
        insert_step_facts
          (v := BlockType.jump name sa JumpType.conditionalTaken (some f))
          hcur hsome _ rfl
      set gI := (if curr.start ≤ pc ∧ pc ≤ curr.end_ then { g with blocks := g.blocks.set g.current_block (curr.add_instruction pc (BlockType.jump name sa JumpType.conditionalTaken (some f))) } else g) with hgI
      have hcurI : gI.current_block < gI.blocks.length := by
        rw [hIcur, hIlen]
        exact hcur
      obtain ⟨fi, g1, heq1, hfi1, hcb1, hclt1, hfilt1, hmono1,
        hstart1, hedges1, hq1, hw1, he1, hendsT1, hlenT1, hempty1⟩ :=
        resolveEdge_spec (a := f) hcurI
      simp only [heq1]
      obtain ⟨si, g2, heq2, hfi2, hcb2, hclt2, hfilt2, hmono2,
        hstart2, hedges2, hq2, hw2, he2, hendsT2, hlenT2, hempty2⟩ :=
        resolveEdgeCursor_spec (a := sa) hclt1
      simp only [heq2]
      refine ⟨fi, si, by trivial, hcb2, hstart2, ?_, ?_⟩
      · rw [hq2 fi hfilt1]
        exact hstart1
      · rw [hcb1, hIcur] at hedges2
        rw [hIcur] at hedges1
        rw [hedges2, hedges1, hIedges g.current_block, List.append_assoc]
        rfl
  · simp only [ControlFlowGraph.execute]
    split
    next hnone => rw [hnone] at hc; cases hc
    next curr hsome =>
      obtain ⟨hIcur, hIlen, hIstart, hIedges, hIendsF⟩ :=
        insert_step_facts
          (v := BlockType.jump name sa JumpType.conditionalNotTaken (some f))
          hcur hsome _ rfl
      set gI := (if curr.start ≤ pc ∧ pc ≤ curr.end_ then { g with blocks := g.blocks.set g.current_block (curr.add_instruction pc (BlockType.jump name sa JumpType.conditionalNotTaken (some f))) } else g) with hgI
      have hcurI : gI.current_block < gI.blocks.length := by
        rw [hIcur, hIlen]
        exact hcur
      obtain ⟨si, g1, heq1, hfi1, hcb1, hclt1, hfilt1, hmono1,
        hstart1, hedges1, hq1, hw1, he1, hendsT1, hlenT1, hempty1⟩ :=
        resolveEdge_spec (a := sa) hcurI
      simp only [heq1]
      obtain ⟨fi, g2, heq2, hfi2, hcb2, hclt2, hfilt2, hmono2,
        hstart2, hedges2, hq2, hw2, he2, hendsT2, hlenT2, hempty2⟩ :=
        resolveEdgeCursor_spec (a := f) hclt1
      simp only [heq2]
      refine ⟨fi, si, by trivial, hcb2, ?_, hstart2, ?_⟩
      · rw [hq2 si hfilt1]
        exact hstart1
      · rw [hcb1, hIcur] at hedges2
        rw [hIcur] at hedges1
        rw [hedges2, hedges1, hIedges g.current_block, List.append_assoc]
        rfl

/-- Witness for C3 amended at the fresh entry graph, jump at pc 5 to 9
with failure address 6. -/
theorem C3_conditional_edges_witness :
    (∃ fi si,
      ((ControlFlowGraph.new 2).execute 5 (.jump "JMP" 9 JumpType.conditionalTaken (some 6))).1 = none ∧
      ((ControlFlowGraph.new 2).execute 5 (.jump "JMP" 9 JumpType.conditionalTaken (some 6))).2.current_block = si ∧
      (atD ((ControlFlowGraph.new 2).execute 5 (.jump "JMP" 9 JumpType.conditionalTaken (some 6))).2.blocks si).start = 9 ∧
      (atD ((ControlFlowGraph.new 2).execute 5 (.jump "JMP" 9 JumpType.conditionalTaken (some 6))).2.blocks fi).start = 6 ∧
      (atD ((ControlFlowGraph.new 2).execute 5 (.jump "JMP" 9 JumpType.conditionalTaken (some 6))).2.blocks (ControlFlowGraph.new 2).current_block).edges
        = (atD (ControlFlowGraph.new 2).blocks (ControlFlowGraph.new 2).current_block).edges ++ [fi, si]) ∧
    (∃ fi si,
      ((ControlFlowGraph.new 2).execute 5 (.jump "JMP" 9 JumpType.conditionalNotTaken (some 6))).1 = none ∧
      ((ControlFlowGraph.new 2).execute 5 (.jump "JMP" 9 JumpType.conditionalNotTaken (some 6))).2.current_block = fi ∧
      (atD ((ControlFlowGraph.new 2).execute 5 (.jump "JMP" 9 JumpType.conditionalNotTaken (some 6))).2.blocks si).start = 9 ∧
      (atD ((ControlFlowGraph.new 2).execute 5 (.jump "JMP" 9 JumpType.conditionalNotTaken (some 6))).2.blocks fi).start = 6 ∧
      (atD ((ControlFlowGraph.new 2).execute 5 (.jump "JMP" 9 JumpType.conditionalNotTaken (some 6))).2.blocks (ControlFlowGraph.new 2).current_block).edges
        = (atD (ControlFlowGraph.new 2).blocks (ControlFlowGraph.new 2).current_block).edges ++ [si, fi]) ∧
    ((runTrace (ControlFlowGraph.new 2)
        [(3, .instruction "INC" ""), (4, .instruction "LDAC" "Op"),
         (5, .jump "JMP" 9 JumpType.conditionalTaken (some 6))]).blocks.length = 3 ∧
     ((runTrace (ControlFlowGraph.new 2)
        [(3, .instruction "INC" ""), (4, .instruction "LDAC" "Op"),
         (5, .jump "JMP" 9 JumpType.conditionalTaken (some 6))]).blockAt 0).edges = [1, 2] ∧
     ((runTrace (ControlFlowGraph.new 2)
        [(3, .instruction "INC" ""), (4, .instruction "LDAC" "Op"),
         (5, .jump "JMP" 9 JumpType.conditionalTaken (some 6))]).blockAt 1).start = 6 ∧
     ((runTrace (ControlFlowGraph.new 2)
        [(3, .instruction "INC" ""), (4, .instruction "LDAC" "Op"),
         (5, .jump "JMP" 9 JumpType.conditionalTaken (some 6))]).blockAt 2).start = 9 ∧
     (runTrace (ControlFlowGraph.new 2)
        [(3, .instruction "INC" ""), (4, .instruction "LDAC" "Op"),
         (5, .jump "JMP" 9 JumpType.conditionalTaken (some 6))]).current_block = 2) :=
  C3_conditional_edges (good_new 2) 5 9 6 "JMP"

/-- C1: evaluation of the unconditional-jump scenario. Starting at entry 2
and executing Plain@3, Plain@4, an unconditional jump to 9 at pc 5 and
Plain@10 produces 2 blocks as expected, but block 0 ends with an empty
edge list — the `UnconditionalJump` create path appends the target block
and moves the cursor without installing the current→target edge, so the
expected single edge (claimed traversal count 1) is missing. -/
theorem C1_unconditional_scenario_eval :
    (runTrace (ControlFlowGraph.new 2)
      [(3, .instruction "INC" ""), (4, .instruction "LDAC" "Op"),
       (5, .jump "JMP" 9 JumpType.unconditionalJump none),
       (10, .instruction "INC" "")]).blocks.length = 2 ∧
    ((runTrace (ControlFlowGraph.new 2)
      [(3, .instruction "INC" ""), (4, .instruction "LDAC" "Op"),
       (5, .jump "JMP" 9 JumpType.unconditionalJump none),
       (10, .instruction "INC" "")]).blockAt 0).edges = [] ∧
    ((runTrace (ControlFlowGraph.new 2)
      [(3, .instruction "INC" ""), (4, .instruction "LDAC" "Op"),
       (5, .jump "JMP" 9 JumpType.unconditionalJump none),
       (10, .instruction "INC" "")]).blockAt 1).start = 9 ∧
    (runTrace (ControlFlowGraph.new 2)
      [(3, .instruction "INC" ""), (4, .instruction "LDAC" "Op"),
       (5, .jump "JMP" 9 JumpType.unconditionalJump none),
       (10, .instruction "INC" "")]).current_block = 1 := by
  decide

/-- Witness for C9 at entry 2 after one executed instruction. -/
theorem C9_cursor_always_valid_witness :
    0 < (runTrace (ControlFlowGraph.new 2)
      [(2, .instruction "INC" "")]).blocks.length ∧
    (runTrace (ControlFlowGraph.new 2)
      [(2, .instruction "INC" "")]).current_block
      < (runTrace (ControlFlowGraph.new 2)
      [(2, .instruction "INC" "")]).blocks.length ∧
    ((runTrace (ControlFlowGraph.new 2)
      [(2, .instruction "INC" "")]).execute 9 (.instruction "LDAC" "Op")).1
      ≠ some CFGError.missingCurrentBlock :=
  ⟨(C9_cursor_always_valid 2 [(2, .instruction "INC" "")]).1,
   (C9_cursor_always_valid 2 [(2, .instruction "INC" "")]).2.1,
   (C9_cursor_always_valid 2 [(2, .instruction "INC" "")]).2.2 9
     (.instruction "LDAC" "Op")⟩
